import Mathlib

/-!
Verification of the SafeTrace routing core against its specification.

The repository ships the frontend TypeScript sources (map page, geocoding,
API client) together with design documents describing the Python backend
(routing engine, threat-fusion engine, risk-score service).  The backend
sources themselves are not part of the tree, so the engine-side components
(edge-weight fusion, Dijkstra path search, route assembly, journey monitor,
service readiness) are modelled from the specification, while the frontend
functions (segmentDistanceKm, calculateBearing, handleCalculateRoute, the
two geocoding variants) are embedded directly from the TypeScript sources.

Numeric conventions: exact rationals stand in for finite floating-point
values wherever the source arithmetic is ring arithmetic; the two
trigonometric frontend helpers are embedded over the reals.
-/

namespace SafeTrace

/-! ## Routing modes and threat fusion (EdgeWeightCalculator)

Modelled from the spec: the backend file threatfusionengine.py is not in
the tree.  Spec section 4.5 gives the fusion formula
  risk_component = average(risk u, risk v) * darkness_factor * weather_factor
  crowd_adjustment = crowd_direction[m] * crowd_coefficient[m] * density_level
  weight = max(epsilon, base_travel_cost + risk_sensitivity[m]*risk_component
                          + crowd_adjustment)
with the per-mode parameter table an exhaustive match over the four modes.
The risk sensitivities are the documented MODE_RISK_MULTIPLIERS from
config.py; crowd coefficients follow the Routing Modes table of
IMPLEMENTATION_SUMMARY.md (safe +15 rewarding crowds, balanced 10,
stealth 75 penalizing crowds, escort 15 penalizing isolation). -/

/-- The closed set of routing modes (spec section 3: no dynamic registration). -/
inductive RouteMode where
  | safe
  | balanced
  | stealth
  | escort
deriving DecidableEq, Repr

/-- Fixed parameter tuple attached to each mode (spec section 3). -/
structure ModeParams where
  risk_sensitivity : ℚ
  crowd_coefficient : ℚ
  crowd_direction : ℚ
deriving DecidableEq, Repr

/-- Exhaustive per-mode parameter table (spec section 4.5; multipliers from
the documented config.py table, crowd columns from the Routing Modes table). -/
def modeParams : RouteMode → ModeParams
  | .safe => ⟨8/10, 15, -1⟩
  | .balanced => ⟨5/10, 10, -1⟩
  | .stealth => ⟨3/10, 75, 1⟩
  | .escort => ⟨75/100, 15, -1⟩

/-- Crowd-density level reported by the CrowdSignalProvider (spec section 4.4);
`unknown` is treated as a neutral value in fusion. -/
inductive CrowdDensity where
  | low
  | medium
  | high
  | unknown
deriving DecidableEq, Repr

/-- Numeric level used in the crowd adjustment; `unknown` maps to the neutral
midpoint (spec section 4.4). -/
def densityLevel : CrowdDensity → ℚ
  | .low => 0
  | .medium => 1
  | .high => 2
  | .unknown => 1

/-- A road segment: endpoints, base traversal cost and length
(spec section 3, Edge). -/
structure Edge where
  u : Nat
  v : Nat
  base : ℚ
  lengthKm : ℚ
deriving DecidableEq, Repr

/-- The documented small positive clamping constant for edge weights
(spec section 4.5: a configuration constant). -/
def epsilon : ℚ := 1/1000

/-- risk_component of spec section 4.5. -/
def riskComponent (riskU riskV darkness weather : ℚ) : ℚ :=
  (riskU + riskV) / 2 * darkness * weather

/-- crowd_adjustment of spec section 4.5. -/
def crowdAdjustment (m : RouteMode) (dens : CrowdDensity) : ℚ :=
  (modeParams m).crowd_direction * (modeParams m).crowd_coefficient * densityLevel dens

/-- Modelled from the spec: `calculate_final_edge_weight` of the absent
threatfusionengine.py, per the section 4.5 fusion formula with the epsilon
clamp. -/
def edgeWeight (m : RouteMode) (e : Edge) (riskU riskV darkness weather : ℚ)
    (dens : CrowdDensity) : ℚ :=
  max epsilon
    (e.base + (modeParams m).risk_sensitivity * riskComponent riskU riskV darkness weather
      + crowdAdjustment m dens)

/-! ## Error taxonomy and service readiness -/

/-- Failure taxonomy of the routing service.  Constructors follow the
Error Handling table of the routing guide (invalid mode, invalid
coordinates, no route found, graph not loaded, server error). -/
inductive CoreError where
  | invalidMode
  | invalidCoordinates
  | noRouteFound
  | graphNotLoaded
  | serverError
deriving DecidableEq, Repr

/-- HTTP status attached to each failure, embedded from the Error Handling
table of the routing guide: invalid mode 400, invalid coordinates 400,
no route found 404, graph not loaded 500, server error 500. -/
def httpStatus : CoreError → Nat
  | .invalidMode => 400
  | .invalidCoordinates => 400
  | .noRouteFound => 404
  | .graphNotLoaded => 500
  | .serverError => 500

/-! ## Road network graph and service readiness (spec sections 4.1, 7, 9) -/

/-- Immutable in-memory road network (spec section 3): node identifiers with
coordinates, and directed edges.  Adjacency is recovered by filtering the
edge list. -/
structure RoadNetworkGraph where
  nodes : List Nat
  edges : List Edge
deriving DecidableEq, Repr

/-- Risk lookup table: (node, hour) to score records (spec section 4.2);
missing pairs resolve to the documented default baseline. -/
structure RiskTable where
  records : List (Nat × Nat × ℚ)
deriving DecidableEq, Repr

/-- The loaded core: both the graph and the risk table are present exactly
when loading fully succeeded (spec section 9: construction is atomic). -/
structure RoutingCore where
  graph : RoadNetworkGraph
  risk : RiskTable
deriving Repr

/-- Modelled from the spec: `load_risk_and_graph_data` of the absent
riskscoreservice.py, after the documented fix.  The loader publishes a core
only when every input is present; a failed load yields no core at all, so
there is no partially-initialized state (spec section 9). -/
def loadCore (graphData : Option RoadNetworkGraph) (riskData : Option RiskTable) :
    Option RoutingCore :=
  match graphData, riskData with
  | some g, some r => some ⟨g, r⟩
  | _, _ => none

/-- A route request as received by the service (spec section 6). -/
structure RouteRequest where
  mode : RouteMode
  startLat : ℚ
  startLon : ℚ
  endLat : ℚ
  endLon : ℚ
deriving DecidableEq, Repr

/-- Coordinate validation of the route endpoint (routing guide: ensure
-90 <= lat <= 90 and -180 <= lon <= 180). -/
def validCoordinates (req : RouteRequest) : Bool :=
  decide (-90 ≤ req.startLat) && decide (req.startLat ≤ 90) &&
  decide (-180 ≤ req.startLon) && decide (req.startLon ≤ 180) &&
  decide (-90 ≤ req.endLat) && decide (req.endLat ≤ 90) &&
  decide (-180 ≤ req.endLon) && decide (req.endLon ≤ 180)

/-- Modelled from the spec: the route-request gate of the absent
routingservice.py.  A service whose load has not completed holds no core;
every route request is then refused with the not-loaded error before any
other processing (spec section 7). -/
def handleRouteRequest (core : Option RoutingCore) (req : RouteRequest) :
    Except CoreError RoutingCore :=
  match core with
  | none => .error .graphNotLoaded
  | some c =>
    if validCoordinates req then .ok c else .error .invalidCoordinates

/-- A monitoring-check request as received by the service (spec section 6:
current position, planned route coordinates with optional node ids, and
the mode in use). -/
structure MonitorRequest where
  mode : RouteMode
  currentLat : ℚ
  currentLon : ℚ
  plannedRouteCoords : List (ℚ × ℚ)
  plannedRouteNodes : List Nat
deriving DecidableEq, Repr

/-- Modelled from the spec: the monitor-request gate of the absent alert
service.  The same readiness rule applies as for route requests: while no
core is loaded every monitoring check is refused with the not-loaded
error (spec section 7: the core refuses all route/monitor requests until
load completes successfully). -/
def handleMonitorRequest (core : Option RoutingCore) (req : MonitorRequest) :
    Except CoreError RoutingCore :=
  match core with
  | none => .error .graphNotLoaded
  | some c => .ok c

/-! ## Geocoding (embedded from the TypeScript sources)

Two variants exist in the tree: the bounded one filters Nominatim results
to the Chennai service-area box [12.80, 13.28] x [80.10, 80.38]; the
variant in frontend/src/services/geocoding.ts applies no bounds filter.
Both return the empty list / null on blank input and on any fetch failure.
The network response is passed in as an explicit outcome value. -/

/-- A geocoding result as produced by either variant. -/
structure GeocodingResult where
  lat : ℚ
  lon : ℚ
  name : String
deriving DecidableEq, Repr

/-- A raw Nominatim record: parsed coordinates and optional display name. -/
structure RawGeoResult where
  lat : ℚ
  lon : ℚ
  display_name : Option String
deriving DecidableEq, Repr

/-- Outcome of the fetch call: a network or HTTP failure, or a JSON body. -/
inductive FetchOutcome where
  | failure
  | ok (results : List RawGeoResult)
deriving DecidableEq, Repr

/-- Blank-input check of both geocoding variants: the TypeScript guard
`!locationText.trim()` holds exactly when every character is whitespace. -/
def isBlank (s : String) : Bool := s.data.all Char.isWhitespace

/-- Field mapping applied to each raw record
(name falls back to the query text). -/
def toGeocodingResult (locationText : String) (r : RawGeoResult) : GeocodingResult :=
  ⟨r.lat, r.lon, r.display_name.getD locationText⟩

/-- The Chennai service-area bounds check of the bounded variant. -/
def inChennaiBounds (lat lon : ℚ) : Bool :=
  decide ((1280 : ℚ)/100 ≤ lat) && decide (lat ≤ (1328 : ℚ)/100) &&
  decide ((8010 : ℚ)/100 ≤ lon) && decide (lon ≤ (8038 : ℚ)/100)

namespace BoundedGeocoding

/-- `searchLocations` of the bounded geocoding module: blank input yields [],
any fetch failure yields [], and successful results are mapped and filtered
to the Chennai bounds. -/
def searchLocations (locationText : String) (fetch : FetchOutcome) :
    List GeocodingResult :=
  if isBlank locationText then []
  else
    match fetch with
    | .failure => []
    | .ok results =>
      (results.map (toGeocodingResult locationText)).filter
        fun r => inChennaiBounds r.lat r.lon

/-- First raw record within the Chennai bounds, mapped; the loop of
`geocodeLocation`. -/
def firstInBounds (locationText : String) : List RawGeoResult → Option GeocodingResult
  | [] => none
  | r :: rs =>
    if inChennaiBounds r.lat r.lon then some (toGeocodingResult locationText r)
    else firstInBounds locationText rs

/-- `geocodeLocation` of the bounded geocoding module: blank input yields
null, fetch failure yields null, otherwise the first result within the
Chennai bounds (null when none qualifies). -/
def geocodeLocation (locationText : String) (fetch : FetchOutcome) :
    Option GeocodingResult :=
  if isBlank locationText then none
  else
    match fetch with
    | .failure => none
    | .ok results => firstInBounds locationText results

end BoundedGeocoding

namespace UnfilteredGeocoding

/-- `searchLocations` of frontend/src/services/geocoding.ts: identical to
the bounded variant except that no bounds filter is applied. -/
def searchLocations (locationText : String) (fetch : FetchOutcome) :
    List GeocodingResult :=
  if isBlank locationText then []
  else
    match fetch with
    | .failure => []
    | .ok results => results.map (toGeocodingResult locationText)

end UnfilteredGeocoding

/-! ## Frontend route-request flow (embedded from MapApp.tsx) -/

/-- A latitude/longitude pair as used by the frontend map page. -/
structure Coordinate where
  lat : ℝ
  lon : ℝ

/-- The per-segment metadata the map page consumes (api.ts, SegmentInfo). -/
structure SegmentInfo where
  segment_id : Nat
  score : ℚ
  num_feedback : Nat

/-- The route response consumed by handleCalculateRoute (api.ts). -/
structure RouteResponse where
  route_coords : List Coordinate
  distance_approx_km : ℚ
  mode_used : String
  segments : Option (List SegmentInfo)

/-- The component state touched by handleCalculateRoute: the displayed
route, the route-info card, the navigation-started ref, the error banner,
the loading flag and the stored segments. -/
structure UIState where
  route : List Coordinate
  routeInfo : Option (ℚ × String)
  navigationStarted : Bool
  error : Option String
  loading : Bool
  routeSegments : List SegmentInfo

/-- startNavigation's effect on the navigation-started ref: set only when
the route is non-empty and speech synthesis is available (MapApp.tsx). -/
def startNavigationRef (speechAvailable : Bool) (routeCoords : List Coordinate)
    (nav : Bool) : Bool :=
  if routeCoords.isEmpty then nav
  else if speechAvailable then true
  else nav

/-- handleCalculateRoute of MapApp.tsx over an explicit request outcome:
missing endpoints short-circuit with an error banner; otherwise the
previous route is cleared before the request, a rejected request or an
empty coordinate list lands in the catch block (clearing route, routeInfo
and the navigation ref), and a non-empty response installs the new route. -/
def handleCalculateRoute (st : UIState) (startPt endPt : Option Coordinate)
    (outcome : Except String RouteResponse) (speechAvailable : Bool) : UIState :=
  match startPt, endPt with
  | none, _ => { st with error := some "Please enter both start and end locations" }
  | some _, none => { st with error := some "Please enter both start and end locations" }
  | some _, some _ =>
    let st1 : UIState :=
      { st with loading := true, error := none, route := [], routeInfo := none }
    match outcome with
    | .error msg =>
      { st1 with error := some msg, route := [], routeInfo := none,
                 navigationStarted := false, loading := false }
    | .ok resp =>
      if resp.route_coords.isEmpty then
        { st1 with error := some "Route calculation returned empty coordinates",
                   route := [], routeInfo := none,
                   navigationStarted := false, loading := false }
      else
        { st1 with route := resp.route_coords,
                   routeInfo := some (resp.distance_approx_km, resp.mode_used),
                   routeSegments := resp.segments.getD st1.routeSegments,
                   navigationStarted :=
                     startNavigationRef speechAvailable resp.route_coords
                       st1.navigationStarted,
                   loading := false }

/-! ## Journey safety monitor (spec section 4.8)

Modelled from the spec: the backend alert service is not in the tree.
Positions and route polylines live in a planar rational coordinate model;
the deviation test compares the squared point-to-polyline distance with
the squared configured threshold. -/

/-- A planar position used by the monitor model. -/
abbrev GeoPoint := ℚ × ℚ

/-- Squared Euclidean distance between two points. -/
def distSq (p q : GeoPoint) : ℚ := (p.1 - q.1) ^ 2 + (p.2 - q.2) ^ 2

/-- Squared distance from point p to the segment from a to b, via the
projection parameter clamped to [0, 1]; a degenerate segment reduces to
the point distance. -/
def segPointDistSq (a b p : GeoPoint) : ℚ :=
  let dx := b.1 - a.1
  let dy := b.2 - a.2
  let len := dx ^ 2 + dy ^ 2
  if len = 0 then distSq p a
  else
    let t := ((p.1 - a.1) * dx + (p.2 - a.2) * dy) / len
    let tc := max 0 (min 1 t)
    distSq p (a.1 + tc * dx, a.2 + tc * dy)

/-- Squared distance from p to the route polyline: the minimum over the
consecutive segments; none when the polyline has fewer than two points. -/
def polylineDistSq (route : List GeoPoint) (p : GeoPoint) : Option ℚ :=
  (route.zip route.tail).foldl
    (fun acc ab =>
      match acc with
      | none => some (segPointDistSq ab.1 ab.2 p)
      | some d => some (min d (segPointDistSq ab.1 ab.2 p)))
    none

/-- Journey status set (spec section 3, JourneyState). -/
inductive JourneyStatus where
  | Planned
  | Active
  | Deviated
  | HazardDetected
  | Completed
  | Aborted
deriving DecidableEq, Repr

/-- Monitor configuration constants (spec sections 4.8 and 9: deviation
threshold, hazard alert threshold and alert cooldown window are documented
configuration constants). -/
structure MonitorConfig where
  deviationThreshold : ℚ
  alertThreshold : ℚ
  cooldown : ℚ
deriving DecidableEq, Repr

/-- An emitted alert (spec section 4.8, AlertEvent). -/
structure AlertEvent where
  alertType : String
  message : String
  actionRequired : Bool
deriving DecidableEq, Repr

/-- Per-journey monitor state: current status and the last alert time of
each distinct condition (spec section 3, JourneyState.last_alert_time). -/
structure JourneyState where
  status : JourneyStatus
  lastDeviationAlert : Option ℚ
  lastHazardAlert : Option ℚ
deriving DecidableEq, Repr

/-- Whether the cooldown window for a condition has elapsed at time now. -/
def cooldownReady (cooldown now : ℚ) : Option ℚ → Bool
  | none => true
  | some t0 => decide (cooldown ≤ now - t0)

/-- Modelled from the spec: one position update of the JourneySafetyMonitor
(spec section 4.8).  Step 1 tests deviation against the planned polyline;
step 2 scans the lookahead risk signals; at most one alert is emitted per
condition within the cooldown window. -/
def monitorUpdate (cfg : MonitorConfig) (routePts : List GeoPoint)
    (lookaheadRisk : List ℚ) (st : JourneyState) (pos : GeoPoint) (now : ℚ) :
    JourneyState × Option AlertEvent :=
  let beyond :=
    match polylineDistSq routePts pos with
    | none => false
    | some d2 => decide (cfg.deviationThreshold ^ 2 < d2)
  if beyond then
    if cooldownReady cfg.cooldown now st.lastDeviationAlert then
      ({ st with status := .Deviated, lastDeviationAlert := some now },
        some ⟨"Deviated", "You have deviated from the planned route", true⟩)
    else
      ({ st with status := .Deviated }, none)
  else if lookaheadRisk.any (fun r => decide (cfg.alertThreshold < r)) then
    if cooldownReady cfg.cooldown now st.lastHazardAlert then
      ({ st with status := .HazardDetected, lastHazardAlert := some now },
        some ⟨"HazardDetected", "High risk detected ahead on the route", true⟩)
    else
      ({ st with status := .HazardDetected }, none)
  else
    ({ st with status := .Active }, none)

/-- Folding the monitor over a sequence of (position, time) updates,
collecting every emitted alert. -/
def monitorRun (cfg : MonitorConfig) (routePts : List GeoPoint)
    (lookaheadRisk : List ℚ) :
    JourneyState → List (GeoPoint × ℚ) → JourneyState × List AlertEvent
  | st, [] => (st, [])
  | st, (p, t) :: rest =>
    let step := monitorUpdate cfg routePts lookaheadRisk st p t
    let tail := monitorRun cfg routePts lookaheadRisk step.1 rest
    (tail.1, step.2.toList ++ tail.2)

/-! ## PathFinder (spec section 4.6)

Modelled from the spec: the backend file routingengine.py is not in the
tree.  Dijkstra's single-source shortest-path search over the immutable
graph, driven by a per-request weight function evaluated lazily on each
edge visited; the priority queue is keyed by accumulated cost with ties
broken by the lower node identifier.  Each queue entry carries the edge
path realizing its tentative distance. -/

/-- An entry of the search state: a node, its tentative (or settled)
accumulated cost, and the edge path realizing it. -/
structure NodeEntry where
  node : Nat
  dist : ℚ
  path : List Edge
deriving DecidableEq, Repr

/-- The node identifiers carried by a list of entries. -/
def keys (l : List NodeEntry) : List Nat := l.map (·.node)

/-- Priority order of the queue: smaller accumulated cost first, ties
broken by the lower node identifier (spec section 4.6). -/
def entryLE (a b : NodeEntry) : Bool :=
  decide (a.dist < b.dist) || (decide (a.dist = b.dist) && decide (a.node ≤ b.node))

/-- Extract the minimum-priority entry from the queue, returning it with
the remaining entries. -/
def extractMin : List NodeEntry → Option (NodeEntry × List NodeEntry)
  | [] => none
  | e :: es =>
    match extractMin es with
    | none => some (e, [])
    | some (m, rest) => if entryLE e m then some (e, es) else some (m, e :: rest)

/-- Relaxation update of the frontier at key t with candidate distance nd
realized by path np: inserts the entry when the key is absent, improves it
when the candidate is strictly smaller, and otherwise leaves the frontier
unchanged. -/
def updateFrontier : List NodeEntry → Nat → ℚ → List Edge → List NodeEntry
  | [], t, nd, np => [⟨t, nd, np⟩]
  | en :: fr, t, nd, np =>
    if en.node = t then
      (if nd < en.dist then ⟨t, nd, np⟩ else en) :: fr
    else
      en :: updateFrontier fr t nd np

/-- Relax a list of outgoing edges from a node settled at distance d with
realizing path p, skipping targets that are already settled. -/
def relaxEdges (w : Edge → ℚ) (settledKeys : List Nat) (d : ℚ) (p : List Edge) :
    List Edge → List NodeEntry → List NodeEntry
  | [], fr => fr
  | e :: es, fr =>
    relaxEdges w settledKeys d p es
      (if e.v ∈ settledKeys then fr else updateFrontier fr e.v (d + w e) (p ++ [e]))

/-- Outgoing edges of node u; adjacency is read off the immutable edge
list (the weight function is applied lazily only to edges visited here). -/
def outEdges (g : RoadNetworkGraph) (u : Nat) : List Edge :=
  g.edges.filter fun e => e.u == u

/-- Main loop: repeatedly settle the minimum-priority frontier entry and
relax its outgoing edges.  The fuel argument bounds the number of
settlements; the caller supplies enough for every reachable node. -/
def dijkstraAux (g : RoadNetworkGraph) (w : Edge → ℚ) :
    Nat → List NodeEntry → List NodeEntry → List NodeEntry
  | 0, settled, _ => settled
  | fuel + 1, settled, frontier =>
    match extractMin frontier with
    | none => settled
    | some (en, rest) =>
      dijkstraAux g w fuel (en :: settled)
        (relaxEdges w (keys (en :: settled)) en.dist en.path (outEdges g en.node) rest)

/-- Every node the search can ever reach or enqueue: the start node and
each edge target, deduplicated. -/
def nodeUniverse (g : RoadNetworkGraph) (start : Nat) : List Nat :=
  (start :: g.edges.map (·.v)).dedup

/-- Dijkstra's search from the start node under weight function w; returns
the settled entries. -/
def dijkstra (g : RoadNetworkGraph) (w : Edge → ℚ) (start : Nat) : List NodeEntry :=
  dijkstraAux g w (nodeUniverse g start).length [] [⟨start, 0, []⟩]

/-- PathFinder: the minimum-cost edge path from start to target, or none
when the target was never settled (NoPathFound, spec section 4.6). -/
def pathFinder (g : RoadNetworkGraph) (w : Edge → ℚ) (start target : Nat) :
    Option (List Edge) :=
  match (dijkstra g w start).find? (fun en => en.node == target) with
  | none => none
  | some en => some en.path

/-- Walk predicate: es chains from s to t through edges of the graph. -/
def isWalk (g : RoadNetworkGraph) : Nat → Nat → List Edge → Bool
  | s, t, [] => s == t
  | s, t, e :: es => decide (e ∈ g.edges) && (e.u == s) && isWalk g e.v t es

/-- Total cost of an edge path under weight function w. -/
def cost (w : Edge → ℚ) (es : List Edge) : ℚ := (es.map w).sum

/-- Connectivity in the underlying graph. -/
def Connected (g : RoadNetworkGraph) (s t : Nat) : Prop :=
  ∃ es, isWalk g s t es = true

/-! ## Frontend spherical geometry (embedded from MapApp.tsx)

segmentDistanceKm and calculateBearing are transcendental, so they are
embedded over the reals (the exact-real semantics of the floating-point
source); Math.atan2 is the argument of the complex number x + y i. -/

/-- The shared deg-to-rad helper of MapApp.tsx. -/
noncomputable def toRad (deg : ℝ) : ℝ := deg * Real.pi / 180

/-- JavaScript's Math.atan2(y, x), via the complex argument. -/
noncomputable def atan2 (y x : ℝ) : ℝ := Complex.arg ⟨x, y⟩

/-- JavaScript truncation toward zero (the rounding used by the %
operator). -/
noncomputable def jsTrunc (x : ℝ) : ℤ := if 0 ≤ x then ⌊x⌋ else -⌊-x⌋

/-- JavaScript's remainder operator a % b over the reals. -/
noncomputable def jsMod (a b : ℝ) : ℝ := a - b * (jsTrunc (a / b) : ℝ)

/-- segmentDistanceKm of MapApp.tsx: the haversine great-circle distance
with Earth radius 6371 km. -/
noncomputable def segmentDistanceKm (a b : Coordinate) : ℝ :=
  let R : ℝ := 6371
  let dLat := toRad (b.lat - a.lat)
  let dLon := toRad (b.lon - a.lon)
  let lat1 := toRad a.lat
  let lat2 := toRad b.lat
  let h := Real.sin (dLat / 2) * Real.sin (dLat / 2) +
    Real.cos lat1 * Real.cos lat2 * Real.sin (dLon / 2) * Real.sin (dLon / 2)
  2 * R * atan2 (Real.sqrt h) (Real.sqrt (1 - h))

/-- calculateBearing of MapApp.tsx: forward azimuth folded into [0, 360)
by (bearing + 360) % 360. -/
noncomputable def calculateBearing (a b : Coordinate) : ℝ :=
  let lat1 := toRad a.lat
  let lat2 := toRad b.lat
  let dLon := toRad (b.lon - a.lon)
  let y := Real.sin dLon * Real.cos lat2
  let x := Real.cos lat1 * Real.sin lat2 -
    Real.sin lat1 * Real.cos lat2 * Real.cos dLon
  let bearing := atan2 y x * 180 / Real.pi
  jsMod (bearing + 360) 360

/-! ## RouteAssembler (spec section 4.7)

Modelled from the spec: the assembler maps the node sequence to
coordinates and reports the sum of consecutive haversine distances. -/

/-- Consecutive waypoint pairs of a coordinate list. -/
def consecutivePairs (l : List Coordinate) : List (Coordinate × Coordinate) :=
  l.zip l.tail

/-- Total great-circle distance of a waypoint list: the sum of haversine
distances between consecutive waypoints. -/
noncomputable def routeTotalDistanceKm (coords : List Coordinate) : ℝ :=
  ((consecutivePairs coords).map fun ab => segmentDistanceKm ab.1 ab.2).sum

/-- A produced route (spec section 3). -/
structure Route where
  coords : List Coordinate
  distanceKm : ℝ
  modeUsed : RouteMode

/-- Modelled from the spec: RouteAssembler (spec section 4.7) — maps the
returned node sequence to coordinates, computes the total distance as the
sum of consecutive great-circle distances, and packages the mode label. -/
noncomputable def assembleRoute (coordOf : Nat → Coordinate) (nodes : List Nat)
    (m : RouteMode) : Route :=
  ⟨nodes.map coordOf, routeTotalDistanceKm (nodes.map coordOf), m⟩

/-- p lies exactly on the route polyline: it is a convex combination of
the endpoints of some consecutive segment. -/
def OnPolyline (route : List GeoPoint) (p : GeoPoint) : Prop :=
  ∃ ab ∈ route.zip route.tail, ∃ t : ℚ, 0 ≤ t ∧ t ≤ 1 ∧
    p = (ab.1.1 + t * (ab.2.1 - ab.1.1), ab.1.2 + t * (ab.2.2 - ab.1.2))

/-- The Dijkstra loop invariant: keys are unique across settled and
frontier entries, settled entries carry minimum-cost walks, frontier
entries carry genuine walks, every edge crossing out of the settled region
is covered by a frontier entry at least as good, the start node is
settled or covered at cost zero, and every key lives in the node
universe. -/
structure DijkInv (g : RoadNetworkGraph) (w : Edge → ℚ) (start : Nat)
    (settled frontier : List NodeEntry) : Prop where
  nodupKeys : (keys settled ++ keys frontier).Nodup
  settledSound : ∀ en ∈ settled,
    isWalk g start en.node en.path = true ∧ cost w en.path = en.dist
  settledMin : ∀ en ∈ settled, ∀ q, isWalk g start en.node q = true →
    en.dist ≤ cost w q
  frontierSound : ∀ en ∈ frontier,
    isWalk g start en.node en.path = true ∧ cost w en.path = en.dist
  crossing : ∀ se ∈ settled, ∀ e ∈ g.edges, e.u = se.node →
    e.v ∉ keys settled → ∃ f ∈ frontier, f.node = e.v ∧ f.dist ≤ se.dist + w e
  startCover : start ∈ keys settled ∨
    ∃ f ∈ frontier, f.node = start ∧ f.dist ≤ 0
  keysInUniverse : ∀ k ∈ keys settled ++ keys frontier, k ∈ nodeUniverse g start

/-- Bake the lazily-evaluated weight of an edge into its base attribute:
the per-edge effect of the copy-based re-weighting pass the design notes
forbid (IMPLEMENTATION_SUMMARY step 2, spec section 9). -/
def mapEdgeWeight (w : Edge → ℚ) (e : Edge) : Edge := ⟨e.u, e.v, w e, e.lengthKm⟩

/-- The materialized re-weighted copy of the whole graph. -/
def reweightGraph (g : RoadNetworkGraph) (w : Edge → ℚ) : RoadNetworkGraph :=
  ⟨g.nodes, g.edges.map (mapEdgeWeight w)⟩

/-- Reading the baked-in weight attribute of an edge. -/
def baseWeight (e : Edge) : ℚ := e.base

/-- The corresponding renaming of search entries (paths carry re-weighted
edges). -/
def mapEntry (w : Edge → ℚ) (en : NodeEntry) : NodeEntry :=
  ⟨en.node, en.dist, en.path.map (mapEdgeWeight w)⟩

/-- The copy-based PathFinder: search the materialized re-weighted graph
reading the baked-in attribute. -/
def pathFinderPreweighted (g : RoadNetworkGraph) (w : Edge → ℚ) (s t : Nat) :
    Option (List Edge) :=
  pathFinder (reweightGraph g w) baseWeight s t

/-- The node sequence traversed by an edge path from s. -/
def nodeSequence (s : Nat) (p : List Edge) : List Nat := s :: p.map (·.v)

/-! ## Theorems: edge-weight positivity (C2) and service readiness (C5) -/

/-- C2: for every edge, every mode, every risk score in [0, 10], every
darkness factor in {0, 1}, every weather factor and every crowd-density
level, the fused edge weight is strictly positive: the combined value is
clamped from below by the positive epsilon, so no weight is ever zero or
negative. -/
theorem edgeWeight_pos (m : RouteMode) (e : Edge) (riskU riskV darkness weather : ℚ)
    (dens : CrowdDensity)
    (hU0 : 0 ≤ riskU) (hU10 : riskU ≤ 10) (hV0 : 0 ≤ riskV) (hV10 : riskV ≤ 10)
    (hdark : darkness = 0 ∨ darkness = 1) :
    0 < edgeWeight m e riskU riskV darkness weather dens := by
  have heps : (0 : ℚ) < epsilon := by norm_num [epsilon]
  exact lt_of_lt_of_le heps (le_max_left _ _)

/-- Witness for C2 at a concrete instantiation. -/
theorem edgeWeight_pos_witness :
    0 < edgeWeight RouteMode.balanced ⟨0, 1, 1/10, 1⟩ 10 10 1 1 CrowdDensity.high :=
  edgeWeight_pos RouteMode.balanced ⟨0, 1, 1/10, 1⟩ 10 10 1 1 CrowdDensity.high
    (by norm_num) (by norm_num) (by norm_num) (by norm_num) (Or.inr rfl)

/-- C5 counterexample: the documented error table maps the graph-not-loaded
condition to HTTP 500, a 500-class server error, not to 503. -/
theorem graphNotLoaded_maps_to_500 :
    httpStatus CoreError.graphNotLoaded = 500 ∧
      httpStatus CoreError.graphNotLoaded ≠ 503 := by
  constructor
  · rfl
  · decide

/-- C5 (amended): whenever loading has not completed the service holds no
core and every route request and every monitor request is refused with
the graph-not-loaded error, which the error table maps to a 500-class
status; loading is atomic: it yields a core exactly when both inputs are
present, and any published core carries exactly the loaded graph and risk
table, so a failed load never leaves the engine partially initialized. -/
theorem routing_refusal_until_loaded :
    httpStatus CoreError.graphNotLoaded = 500 ∧
    (∀ req : RouteRequest,
        handleRouteRequest none req = Except.error CoreError.graphNotLoaded) ∧
    (∀ req : MonitorRequest,
        handleMonitorRequest none req = Except.error CoreError.graphNotLoaded) ∧
    (∀ gd rd, loadCore gd rd = none ↔ (gd = none ∨ rd = none)) ∧
    (∀ gd rd c, loadCore gd rd = some c → gd = some c.graph ∧ rd = some c.risk) := by
  refine ⟨rfl, fun _ => rfl, fun _ => rfl, fun gd rd => ?_, fun gd rd c h => ?_⟩
  · cases gd <;> cases rd <;> simp [loadCore]
  · cases gd <;> cases rd <;> simp_all [loadCore]
    cases h
    exact ⟨rfl, rfl⟩

/-- Witness for C5 at concrete inputs: a not-yet-loaded service refuses a
route request and a monitoring check, and a load with a missing risk
table publishes nothing. -/
theorem routing_refusal_until_loaded_witness :
    handleRouteRequest none ⟨RouteMode.safe, 13, 80, 13, 80⟩ =
        Except.error CoreError.graphNotLoaded ∧
      handleMonitorRequest none ⟨RouteMode.safe, 13, 80, [(13, 80), (14, 81)], []⟩ =
        Except.error CoreError.graphNotLoaded ∧
      loadCore (some ⟨[], []⟩) none = none :=
  ⟨routing_refusal_until_loaded.2.1 ⟨RouteMode.safe, 13, 80, 13, 80⟩,
    routing_refusal_until_loaded.2.2.1 ⟨RouteMode.safe, 13, 80, [(13, 80), (14, 81)], []⟩,
    (routing_refusal_until_loaded.2.2.2.1 (some ⟨[], []⟩) none).mpr (Or.inr rfl)⟩

/-! ## Theorems: geocoding bounds (C10) and route-failure atomicity (C9) -/

/-- C10: the bounded geocoding module is total towards its caller: blank
input yields the empty list / null, any fetch failure yields the empty
list / null, and every returned result lies within the Chennai
service-area bounds — unlike the unfiltered variant, which can return
out-of-bounds results. -/
theorem boundedGeocoding_bounds :
    (∀ t f, isBlank t = true →
        BoundedGeocoding.searchLocations t f = [] ∧
          BoundedGeocoding.geocodeLocation t f = none) ∧
    (∀ t, BoundedGeocoding.searchLocations t FetchOutcome.failure = [] ∧
        BoundedGeocoding.geocodeLocation t FetchOutcome.failure = none) ∧
    (∀ t f r, r ∈ BoundedGeocoding.searchLocations t f →
        inChennaiBounds r.lat r.lon = true) ∧
    (∀ t f r, BoundedGeocoding.geocodeLocation t f = some r →
        inChennaiBounds r.lat r.lon = true) ∧
    (∃ t f r, r ∈ UnfilteredGeocoding.searchLocations t f ∧
        inChennaiBounds r.lat r.lon = false) := by
  refine ⟨?_, ?_, ?_, ?_, ?_⟩
  · intro t f ht
    simp [BoundedGeocoding.searchLocations, BoundedGeocoding.geocodeLocation, ht]
  · intro t
    by_cases ht : isBlank t = true <;>
      simp [BoundedGeocoding.searchLocations, BoundedGeocoding.geocodeLocation, ht]
  · intro t f r hr
    unfold BoundedGeocoding.searchLocations at hr
    split at hr
    · simp at hr
    · cases f with
      | failure => simp at hr
      | ok results =>
        simp only [List.mem_filter] at hr
        exact hr.2
  · intro t f r hr
    unfold BoundedGeocoding.geocodeLocation at hr
    split at hr
    · simp at hr
    · cases f with
      | failure => simp at hr
      | ok results =>
        simp only at hr
        induction results with
        | nil => simp [BoundedGeocoding.firstInBounds] at hr
        | cons x xs ih =>
          unfold BoundedGeocoding.firstInBounds at hr
          split_ifs at hr with hb
          · cases hr
            simpa [toGeocodingResult] using hb
          · exact ih hr
  · refine ⟨"London", FetchOutcome.ok [⟨515074/10000, -1278/10000, none⟩],
      ⟨515074/10000, -1278/10000, "London"⟩, ?_, ?_⟩
    · have ht : isBlank "London" = false := by decide
      simp [UnfilteredGeocoding.searchLocations, toGeocodingResult, ht]
    · norm_num [inChennaiBounds]

/-- C10 witness at concrete inputs: blank input and fetch failure yield
nothing, a returned result satisfies the bounds, and the unfiltered
variant returns an out-of-bounds result. -/
theorem boundedGeocoding_bounds_witness :
    BoundedGeocoding.searchLocations "  " (FetchOutcome.ok []) = [] ∧
    BoundedGeocoding.geocodeLocation "Marina" FetchOutcome.failure = none := by
  refine ⟨?_, ?_⟩
  · exact (boundedGeocoding_bounds.1 "  " (FetchOutcome.ok []) (by decide)).1
  · exact (boundedGeocoding_bounds.2.1 "Marina").2

/-- C9: handleCalculateRoute is atomic on failure: whenever the route
request rejects or resolves with an empty coordinate list, the resulting
state has an empty route, no route info and a cleared navigation-started
ref, so no stale or partial route survives an error. -/
theorem handleCalculateRoute_atomic_on_failure (st : UIState)
    (sp ep : Coordinate) (outcome : Except String RouteResponse)
    (speechAvailable : Bool)
    (hfail : (∃ msg, outcome = Except.error msg) ∨
      (∃ resp, outcome = Except.ok resp ∧ resp.route_coords = [])) :
    (handleCalculateRoute st (some sp) (some ep) outcome speechAvailable).route = [] ∧
    (handleCalculateRoute st (some sp) (some ep) outcome speechAvailable).routeInfo = none ∧
    (handleCalculateRoute st (some sp) (some ep) outcome speechAvailable).navigationStarted
      = false := by
  rcases hfail with ⟨msg, rfl⟩ | ⟨resp, rfl, hempty⟩
  · exact ⟨rfl, rfl, rfl⟩
  · simp [handleCalculateRoute, hempty]

/-- C9 witness: a rejected request against a populated state clears the
displayed route, the info card and the navigation ref. -/
theorem handleCalculateRoute_atomic_on_failure_witness :
    (handleCalculateRoute
        ⟨[⟨13, 80⟩], some (2, "safe"), true, none, false, []⟩
        (some ⟨13, 80⟩) (some ⟨14, 81⟩)
        (Except.error "Request timeout") true).route = [] ∧
    (handleCalculateRoute
        ⟨[⟨13, 80⟩], some (2, "safe"), true, none, false, []⟩
        (some ⟨13, 80⟩) (some ⟨14, 81⟩)
        (Except.error "Request timeout") true).routeInfo = none ∧
    (handleCalculateRoute
        ⟨[⟨13, 80⟩], some (2, "safe"), true, none, false, []⟩
        (some ⟨13, 80⟩) (some ⟨14, 81⟩)
        (Except.error "Request timeout") true).navigationStarted = false :=
  handleCalculateRoute_atomic_on_failure
    ⟨[⟨13, 80⟩], some (2, "safe"), true, none, false, []⟩
    ⟨13, 80⟩ ⟨14, 81⟩ (Except.error "Request timeout") true
    (Or.inl ⟨"Request timeout", rfl⟩)

/-! ## Theorems: journey monitor deviation behaviour (C4) -/


theorem distSq_nonneg (p q : GeoPoint) : 0 ≤ distSq p q := by
  unfold distSq
  positivity

theorem segPointDistSq_on_segment (a b : GeoPoint) (t : ℚ) (h0 : 0 ≤ t) (h1 : t ≤ 1) :
    segPointDistSq a b (a.1 + t * (b.1 - a.1), a.2 + t * (b.2 - a.2)) = 0 := by
  unfold segPointDistSq
  by_cases hlen : (b.1 - a.1) ^ 2 + (b.2 - a.2) ^ 2 = 0
  · have hdx : b.1 - a.1 = 0 := by nlinarith [sq_nonneg (b.1 - a.1), sq_nonneg (b.2 - a.2)]
    have hdy : b.2 - a.2 = 0 := by nlinarith [sq_nonneg (b.1 - a.1), sq_nonneg (b.2 - a.2)]
    simp [hlen, hdx, hdy, distSq]
  · simp only [hlen, if_false]
    have harg : ((a.1 + t * (b.1 - a.1) - a.1) * (b.1 - a.1) +
        (a.2 + t * (b.2 - a.2) - a.2) * (b.2 - a.2)) /
          ((b.1 - a.1) ^ 2 + (b.2 - a.2) ^ 2) = t := by
      field_simp
      ring
    rw [harg, min_eq_right h1, max_eq_right h0]
    unfold distSq
    ring_nf

/-- Folding the running minimum from a seeded accumulator: the result is
some value below the seed and below the distance of every listed segment. -/
theorem polyFold_some_le (p : GeoPoint) :
    ∀ (l : List (GeoPoint × GeoPoint)) (d : ℚ),
      ∃ dm, (l.foldl
          (fun acc ab =>
            match acc with
            | none => some (segPointDistSq ab.1 ab.2 p)
            | some d0 => some (min d0 (segPointDistSq ab.1 ab.2 p)))
          (some d)) = some dm ∧
        dm ≤ d ∧ ∀ ab ∈ l, dm ≤ segPointDistSq ab.1 ab.2 p := by
  intro l
  induction l with
  | nil => exact fun d => ⟨d, rfl, le_refl d, by simp⟩
  | cons ab rest ih =>
    intro d
    obtain ⟨dm, hfold, hle, hall⟩ := ih (min d (segPointDistSq ab.1 ab.2 p))
    refine ⟨dm, hfold, hle.trans (min_le_left _ _), ?_⟩
    intro cd hcd
    rcases List.mem_cons.mp hcd with rfl | hmem
    · exact hle.trans (min_le_right _ _)
    · exact hall cd hmem

/-- The polyline distance is bounded by the distance to any listed segment. -/
theorem polylineDistSq_le (route : List GeoPoint) (p : GeoPoint)
    (ab : GeoPoint × GeoPoint) (hmem : ab ∈ route.zip route.tail) :
    ∃ d2, polylineDistSq route p = some d2 ∧ d2 ≤ segPointDistSq ab.1 ab.2 p := by
  unfold polylineDistSq
  rcases hzip : route.zip route.tail with _ | ⟨hd, tl⟩
  · rw [hzip] at hmem
    simp at hmem
  · rw [hzip] at hmem
    simp only [List.foldl_cons]
    obtain ⟨dm, hfold, hle, hall⟩ := polyFold_some_le p tl (segPointDistSq hd.1 hd.2 p)
    refine ⟨dm, hfold, ?_⟩
    rcases List.mem_cons.mp hmem with rfl | hmem'
    · exact hle
    · exact hall ab hmem'

/-- C4: a position lying exactly on the planned route polyline never
produces a Deviated transition or alert; and for a sequence of repeated
identical position updates offset beyond the deviation threshold, exactly
one Deviated alert is emitted while the cooldown window has not elapsed. -/
theorem journeyMonitor_deviation (cfg : MonitorConfig) (route : List GeoPoint)
    (lookaheadRisk : List ℚ) :
    (∀ st pos now, OnPolyline route pos →
        (monitorUpdate cfg route lookaheadRisk st pos now).1.status ≠ .Deviated ∧
        (∀ al, (monitorUpdate cfg route lookaheadRisk st pos now).2 = some al →
          al.alertType ≠ "Deviated")) ∧
    (∀ st pos d2 t0 ts, polylineDistSq route pos = some d2 →
        cfg.deviationThreshold ^ 2 < d2 →
        st.lastDeviationAlert = none →
        (∀ t ∈ ts, t - t0 < cfg.cooldown) →
        ((monitorRun cfg route lookaheadRisk st
            ((t0 :: ts).map fun t => (pos, t))).2).map (fun al => al.alertType)
          = ["Deviated"]) := by
  constructor
  · rintro st pos now ⟨ab, hmem, t, h0, h1, rfl⟩
    obtain ⟨d2, hpoly, hle⟩ := polylineDistSq_le route _ ab hmem
    have hzero : segPointDistSq ab.1 ab.2
        (ab.1.1 + t * (ab.2.1 - ab.1.1), ab.1.2 + t * (ab.2.2 - ab.1.2)) = 0 :=
      segPointDistSq_on_segment ab.1 ab.2 t h0 h1
    have hd2 : d2 ≤ cfg.deviationThreshold ^ 2 := by
      calc d2 ≤ 0 := hzero ▸ hle
        _ ≤ cfg.deviationThreshold ^ 2 := sq_nonneg _
    have hbeyond : ¬ cfg.deviationThreshold ^ 2 < d2 := not_lt.mpr hd2
    have hcond : (decide (cfg.deviationThreshold ^ 2 < d2)) = false :=
      decide_eq_false hbeyond
    unfold monitorUpdate
    rw [hpoly]
    simp only [hcond]
    rw [if_neg Bool.false_ne_true]
    split_ifs with hz hc
    · exact ⟨by simp, fun al hal => by cases hal; decide⟩
    · exact ⟨by simp, fun al hal => by cases hal⟩
    · exact ⟨by simp, fun al hal => by cases hal⟩
  · intro st pos d2 t0 ts hpoly hbeyond hnone hwin
    have hstep : monitorUpdate cfg route lookaheadRisk st pos t0 =
        ({ st with status := .Deviated, lastDeviationAlert := some t0 },
          some ⟨"Deviated", "You have deviated from the planned route", true⟩) := by
      unfold monitorUpdate
      rw [hpoly]
      simp [hbeyond, cooldownReady, hnone]
    have htail : ∀ (ts' : List ℚ) (st' : JourneyState),
        st'.lastDeviationAlert = some t0 →
        (∀ t ∈ ts', t - t0 < cfg.cooldown) →
        (monitorRun cfg route lookaheadRisk st'
          (ts'.map fun t => (pos, t))).2 = [] := by
      intro ts'
      induction ts' with
      | nil => intro st' _ _; rfl
      | cons t rest ih =>
        intro st' hlast hwin'
        have hnoalert : monitorUpdate cfg route lookaheadRisk st' pos t =
            ({ st' with status := .Deviated }, none) := by
          unfold monitorUpdate
          rw [hpoly]
          have hcool : cooldownReady cfg.cooldown t st'.lastDeviationAlert = false := by
            rw [hlast]
            simp only [cooldownReady, decide_eq_false_iff_not, not_le]
            exact hwin' t (List.mem_cons_self t rest)
          simp [hbeyond, hcool]
        simp only [List.map_cons, monitorRun, hnoalert]
        rw [ih ({ st' with status := .Deviated }) hlast
          (fun x hx => hwin' x (List.mem_cons_of_mem t hx))]
        rfl
    simp only [List.map_cons, monitorRun, hstep]
    rw [htail ts ({ st with status := .Deviated, lastDeviationAlert := some t0 }) rfl hwin]
    rfl

/-- Witness for C4 at concrete inputs: on the polyline [(0,0),(2,0)] the
midpoint (1,0) never transitions to Deviated, and three repeated updates
at the off-route point (5,3) within the 30-unit cooldown emit exactly one
Deviated alert. -/
theorem journeyMonitor_deviation_witness :
    (monitorUpdate ⟨1, 5, 30⟩ [((0:ℚ),(0:ℚ)), ((2:ℚ),(0:ℚ))] []
        ⟨.Active, none, none⟩ ((1:ℚ), (0:ℚ)) 0).1.status ≠ JourneyStatus.Deviated ∧
    ((monitorRun ⟨1, 5, 30⟩ [((0:ℚ),(0:ℚ)), ((2:ℚ),(0:ℚ))] []
        ⟨.Active, none, none⟩ (([0, 10, 20] : List ℚ).map fun t => (((5:ℚ),(3:ℚ)), t))).2).map
      (fun al => al.alertType) = ["Deviated"] := by
  constructor
  · exact ((journeyMonitor_deviation ⟨1, 5, 30⟩ [((0:ℚ),(0:ℚ)), ((2:ℚ),(0:ℚ))] []).1
      ⟨.Active, none, none⟩ ((1:ℚ), (0:ℚ)) 0
      ⟨(((0:ℚ),(0:ℚ)), ((2:ℚ),(0:ℚ))), by simp [List.zip], 1/2, by norm_num, by norm_num,
        by norm_num⟩).1
  · have h18 : polylineDistSq [((0:ℚ),(0:ℚ)), ((2:ℚ),(0:ℚ))] ((5:ℚ),(3:ℚ)) = some 18 := by
      norm_num [polylineDistSq, segPointDistSq, distSq, List.zip, min_def, max_def]
    exact (journeyMonitor_deviation ⟨1, 5, 30⟩ [((0:ℚ),(0:ℚ)), ((2:ℚ),(0:ℚ))] []).2
      ⟨.Active, none, none⟩ ((5:ℚ),(3:ℚ)) 18 0 [10, 20] h18 (by norm_num) rfl
      (by intro t ht; simp at ht; rcases ht with rfl | rfl <;> norm_num)


/-! ## Theorems: great-circle geometry (C8) and reported distance (C6) -/

theorem atan2_nonneg {y : ℝ} (x : ℝ) (hy : 0 ≤ y) : 0 ≤ atan2 y x :=
  Complex.arg_nonneg_iff.mpr hy

theorem jsMod_mem_Ico {a b : ℝ} (ha : 0 ≤ a) (hb : 0 < b) :
    jsMod a b ∈ Set.Ico 0 b := by
  have hquot : (0 : ℝ) ≤ a / b := div_nonneg ha hb.le
  have htrunc : jsTrunc (a / b) = ⌊a / b⌋ := if_pos hquot
  have hexpand : jsMod a b = b * Int.fract (a / b) := by
    rw [jsMod, htrunc, Int.fract]
    field_simp
  constructor
  · rw [hexpand]
    exact mul_nonneg hb.le (Int.fract_nonneg _)
  · rw [hexpand]
    calc b * Int.fract (a / b) < b * 1 :=
        (mul_lt_mul_left hb).mpr (Int.fract_lt_one _)
    _ = b := mul_one b

/-- C8: segmentDistanceKm is non-negative, vanishes on identical
coordinates, and calculateBearing always lies in [0, 360). -/
theorem frontend_geometry_sound (a b : Coordinate) :
    0 ≤ segmentDistanceKm a b ∧
    segmentDistanceKm a a = 0 ∧
    calculateBearing a b ∈ Set.Ico (0 : ℝ) 360 := by
  refine ⟨?_, ?_, ?_⟩
  · unfold segmentDistanceKm
    have harg := atan2_nonneg
      (Real.sqrt (1 - (Real.sin (toRad (b.lat - a.lat) / 2) *
          Real.sin (toRad (b.lat - a.lat) / 2) +
        Real.cos (toRad a.lat) * Real.cos (toRad b.lat) *
          Real.sin (toRad (b.lon - a.lon) / 2) *
          Real.sin (toRad (b.lon - a.lon) / 2))))
      (Real.sqrt_nonneg (Real.sin (toRad (b.lat - a.lat) / 2) *
          Real.sin (toRad (b.lat - a.lat) / 2) +
        Real.cos (toRad a.lat) * Real.cos (toRad b.lat) *
          Real.sin (toRad (b.lon - a.lon) / 2) *
          Real.sin (toRad (b.lon - a.lon) / 2)))
    positivity
  · unfold segmentDistanceKm
    have h0 : toRad (a.lat - a.lat) = 0 := by
      rw [sub_self]
      simp [toRad]
    have h0' : toRad (a.lon - a.lon) = 0 := by
      rw [sub_self]
      simp [toRad]
    rw [h0, h0']
    simp only [zero_div, Real.sin_zero, mul_zero, zero_mul, add_zero, zero_add,
      Real.sqrt_zero, sub_zero, Real.sqrt_one]
    have hone : ((⟨1, 0⟩ : ℂ)) = (1 : ℂ) := by
      apply Complex.ext <;> simp
    rw [atan2, hone, Complex.arg_one, mul_zero]
  · unfold calculateBearing
    apply jsMod_mem_Ico _ (by norm_num)
    have hgt : -Real.pi <
        atan2 (Real.sin (toRad (b.lon - a.lon)) * Real.cos (toRad b.lat))
          (Real.cos (toRad a.lat) * Real.sin (toRad b.lat) -
            Real.sin (toRad a.lat) * Real.cos (toRad b.lat) *
              Real.cos (toRad (b.lon - a.lon))) :=
      Complex.neg_pi_lt_arg _
    have hpi : (0 : ℝ) < Real.pi := Real.pi_pos
    set θ := atan2 (Real.sin (toRad (b.lon - a.lon)) * Real.cos (toRad b.lat))
      (Real.cos (toRad a.lat) * Real.sin (toRad b.lat) -
        Real.sin (toRad a.lat) * Real.cos (toRad b.lat) *
          Real.cos (toRad (b.lon - a.lon)))
    have hdeg : (-180 : ℝ) < θ * 180 / Real.pi := by
      have h1 : -Real.pi * (180 / Real.pi) < θ * (180 / Real.pi) := by
        apply mul_lt_mul_of_pos_right hgt
        positivity
      have h2 : -Real.pi * (180 / Real.pi) = -180 := by
        field_simp
        ring
      rw [h2] at h1
      calc (-180 : ℝ) < θ * (180 / Real.pi) := h1
        _ = θ * 180 / Real.pi := by ring
    linarith

/-- C6: the distance reported by the assembled route equals the sum of
consecutive great-circle (haversine) distances between the waypoints of
its coordinate list, within a tolerance of 1e-3 km. -/
theorem assembleRoute_distance_consistent (coordOf : Nat → Coordinate)
    (nodes : List Nat) (m : RouteMode) :
    |(assembleRoute coordOf nodes m).distanceKm -
      routeTotalDistanceKm (assembleRoute coordOf nodes m).coords| ≤ 1/1000 := by
  simp [assembleRoute]

/-! ## Theorems: PathFinder correctness (C1), laziness refinement (C3),
determinism (C7) — supporting lemmas -/

theorem isWalk_nil_iff (g : RoadNetworkGraph) (s t : Nat) :
    isWalk g s t [] = true ↔ s = t := by
  simp [isWalk]

theorem isWalk_cons_iff (g : RoadNetworkGraph) (s t : Nat) (e : Edge) (es : List Edge) :
    isWalk g s t (e :: es) = true ↔
      e ∈ g.edges ∧ e.u = s ∧ isWalk g e.v t es = true := by
  simp [isWalk, Bool.and_eq_true, decide_eq_true_eq, beq_iff_eq, and_assoc]

theorem cost_nil (w : Edge → ℚ) : cost w [] = 0 := rfl

theorem cost_cons (w : Edge → ℚ) (e : Edge) (es : List Edge) :
    cost w (e :: es) = w e + cost w es := by
  simp [cost]

theorem cost_append (w : Edge → ℚ) (p q : List Edge) :
    cost w (p ++ q) = cost w p + cost w q := by
  simp [cost]

theorem isWalk_append_edge (g : RoadNetworkGraph) (e : Edge)
    (he : e ∈ g.edges) :
    ∀ (p : List Edge) (s : Nat), isWalk g s e.u p = true →
      isWalk g s e.v (p ++ [e]) = true := by
  intro p
  induction p with
  | nil =>
    intro s hp
    rw [isWalk_nil_iff] at hp
    subst hp
    rw [List.nil_append, isWalk_cons_iff]
    exact ⟨he, rfl, by rw [isWalk_nil_iff]⟩
  | cons f fs ih =>
    intro s hp
    rw [isWalk_cons_iff] at hp
    rw [List.cons_append, isWalk_cons_iff]
    exact ⟨hp.1, hp.2.1, ih f.v hp.2.2⟩

theorem walk_edges_mem (g : RoadNetworkGraph) :
    ∀ (q : List Edge) (s t : Nat), isWalk g s t q = true →
      ∀ e ∈ q, e ∈ g.edges := by
  intro q
  induction q with
  | nil => intro s t _ e he; simp at he
  | cons f fs ih =>
    intro s t hq e he
    rw [isWalk_cons_iff] at hq
    rcases List.mem_cons.mp he with rfl | hmem
    · exact hq.1
    · exact ih f.v t hq.2.2 e hmem

theorem cost_nonneg (g : RoadNetworkGraph) (w : Edge → ℚ)
    (hw : ∀ e ∈ g.edges, 0 ≤ w e) (q : List Edge) (s t : Nat)
    (hq : isWalk g s t q = true) : 0 ≤ cost w q := by
  have hmem := walk_edges_mem g q s t hq
  unfold cost
  apply List.sum_nonneg
  intro x hx
  obtain ⟨e, he, rfl⟩ := List.mem_map.mp hx
  exact hw e (hmem e he)

theorem entryLE_refl (a : NodeEntry) : entryLE a a = true := by
  simp [entryLE]

theorem entryLE_dist_le {a b : NodeEntry} (h : entryLE a b = true) :
    a.dist ≤ b.dist := by
  simp only [entryLE, Bool.or_eq_true, Bool.and_eq_true, decide_eq_true_eq] at h
  rcases h with h | ⟨h, _⟩
  · exact h.le
  · exact h.le

theorem entryLE_total (a b : NodeEntry) :
    entryLE a b = true ∨ entryLE b a = true := by
  simp only [entryLE, Bool.or_eq_true, Bool.and_eq_true, decide_eq_true_eq]
  rcases lt_trichotomy a.dist b.dist with h | h | h
  · exact Or.inl (Or.inl h)
  · rcases Nat.le_total a.node b.node with hn | hn
    · exact Or.inl (Or.inr ⟨h, hn⟩)
    · exact Or.inr (Or.inr ⟨h.symm, hn⟩)
  · exact Or.inr (Or.inl h)

theorem entryLE_trans {a b c : NodeEntry} (hab : entryLE a b = true)
    (hbc : entryLE b c = true) : entryLE a c = true := by
  simp only [entryLE, Bool.or_eq_true, Bool.and_eq_true, decide_eq_true_eq] at hab hbc ⊢
  rcases hab with h1 | ⟨h1, h1n⟩ <;> rcases hbc with h2 | ⟨h2, h2n⟩
  · exact Or.inl (h1.trans h2)
  · exact Or.inl (h2 ▸ h1)
  · exact Or.inl (h1 ▸ h2)
  · exact Or.inr ⟨h1.trans h2, h1n.trans h2n⟩

theorem entryLE_of_not {a b : NodeEntry} (h : ¬ entryLE a b = true) :
    entryLE b a = true := (entryLE_total a b).resolve_left h

theorem extractMin_none_iff (l : List NodeEntry) :
    extractMin l = none ↔ l = [] := by
  cases l with
  | nil => simp [extractMin]
  | cons e es =>
    simp only [extractMin]
    constructor
    · intro h
      cases hrec : extractMin es with
      | none => rw [hrec] at h; exact absurd h (by simp)
      | some pr =>
        obtain ⟨m', rest'⟩ := pr
        rw [hrec] at h
        dsimp only at h
        by_cases hle : entryLE e m' = true
        · rw [if_pos hle] at h; exact absurd h (by simp)
        · rw [if_neg hle] at h; exact absurd h (by simp)
    · intro h
      cases h

theorem extractMin_perm (l : List NodeEntry) (m : NodeEntry)
    (rest : List NodeEntry) (h : extractMin l = some (m, rest)) :
    l.Perm (m :: rest) := by
  induction l generalizing m rest with
  | nil => simp [extractMin] at h
  | cons e es ih =>
    simp only [extractMin] at h
    cases hrec : extractMin es with
    | none =>
      rw [hrec] at h
      rw [extractMin_none_iff] at hrec
      subst hrec
      cases h
      exact List.Perm.refl _
    | some pr =>
      obtain ⟨m', rest'⟩ := pr
      rw [hrec] at h
      dsimp only at h
      have hperm := ih m' rest' hrec
      by_cases hle : entryLE e m' = true
      · rw [if_pos hle] at h
        cases h
        exact List.Perm.refl _
      · rw [if_neg hle] at h
        cases h
        exact (hperm.cons e).trans (List.Perm.swap m e rest')

theorem extractMin_le (l : List NodeEntry) (m : NodeEntry)
    (rest : List NodeEntry) (h : extractMin l = some (m, rest)) :
    ∀ x ∈ l, entryLE m x = true := by
  induction l generalizing m rest with
  | nil => simp [extractMin] at h
  | cons e es ih =>
    simp only [extractMin] at h
    cases hrec : extractMin es with
    | none =>
      rw [hrec] at h
      rw [extractMin_none_iff] at hrec
      subst hrec
      cases h
      intro x hx
      rcases List.mem_cons.mp hx with rfl | hx'
      · exact entryLE_refl x
      · simp at hx'
    | some pr =>
      obtain ⟨m', rest'⟩ := pr
      rw [hrec] at h
      dsimp only at h
      have hmin' := ih m' rest' hrec
      by_cases hle : entryLE e m' = true
      · rw [if_pos hle] at h
        cases h
        intro x hx
        rcases List.mem_cons.mp hx with rfl | hx'
        · exact entryLE_refl x
        · exact entryLE_trans hle (hmin' x hx')
      · rw [if_neg hle] at h
        cases h
        intro x hx
        rcases List.mem_cons.mp hx with rfl | hx'
        · exact entryLE_of_not hle
        · exact hmin' x hx'

theorem updateFrontier_keys (t : Nat) (nd : ℚ) (np : List Edge) :
    ∀ fr : List NodeEntry, keys (updateFrontier fr t nd np) =
      if t ∈ keys fr then keys fr else keys fr ++ [t] := by
  intro fr
  induction fr with
  | nil => simp [updateFrontier, keys]
  | cons en fr ih =>
    simp only [keys, List.map_cons] at ih ⊢
    by_cases hen : en.node = t
    · rw [if_pos (hen ▸ List.mem_cons_self en.node _)]
      simp only [updateFrontier, if_pos hen]
      by_cases hlt : nd < en.dist
      · rw [if_pos hlt]
        simp [hen]
      · rw [if_neg hlt]
        rfl
    · simp only [updateFrontier, if_neg hen, List.map_cons]
      by_cases ht : t ∈ List.map (fun x => x.node) fr
      · rw [if_pos (List.mem_cons_of_mem _ ht), ih, if_pos ht]
      · have hnot : t ∉ en.node :: List.map (fun x => x.node) fr := by
          intro hc
          rcases List.mem_cons.mp hc with hc | hc
          · exact hen hc.symm
          · exact ht hc
        rw [if_neg hnot, ih, if_neg ht, List.cons_append]

theorem updateFrontier_mem (t : Nat) (nd : ℚ) (np : List Edge) :
    ∀ (fr : List NodeEntry) (x : NodeEntry), x ∈ updateFrontier fr t nd np →
      x ∈ fr ∨ x = ⟨t, nd, np⟩ := by
  intro fr
  induction fr with
  | nil =>
    intro x hx
    simp [updateFrontier] at hx
    exact Or.inr hx
  | cons en fr ih =>
    intro x hx
    by_cases hen : en.node = t
    · simp only [updateFrontier, if_pos hen] at hx
      by_cases hlt : nd < en.dist
      · rw [if_pos hlt] at hx
        rcases List.mem_cons.mp hx with rfl | hmem
        · exact Or.inr rfl
        · exact Or.inl (List.mem_cons_of_mem en hmem)
      · rw [if_neg hlt] at hx
        exact Or.inl hx
    · simp only [updateFrontier, if_neg hen] at hx
      rcases List.mem_cons.mp hx with rfl | hmem
      · exact Or.inl (List.mem_cons_self x fr)
      · rcases ih x hmem with h | h
        · exact Or.inl (List.mem_cons_of_mem en h)
        · exact Or.inr h

theorem updateFrontier_exists_le (t : Nat) (nd : ℚ) (np : List Edge) :
    ∀ fr : List NodeEntry, ∃ y ∈ updateFrontier fr t nd np,
      y.node = t ∧ y.dist ≤ nd := by
  intro fr
  induction fr with
  | nil => exact ⟨⟨t, nd, np⟩, by simp [updateFrontier], rfl, le_refl nd⟩
  | cons en fr ih =>
    by_cases hen : en.node = t
    · simp only [updateFrontier, if_pos hen]
      by_cases hlt : nd < en.dist
      · rw [if_pos hlt]
        exact ⟨⟨t, nd, np⟩, List.mem_cons_self _ _, rfl, le_refl nd⟩
      · rw [if_neg hlt]
        exact ⟨en, List.mem_cons_self _ _, hen, not_lt.mp hlt⟩
    · simp only [updateFrontier, if_neg hen]
      obtain ⟨y, hy, hyn, hyd⟩ := ih
      exact ⟨y, List.mem_cons_of_mem en hy, hyn, hyd⟩

theorem updateFrontier_mono (t : Nat) (nd : ℚ) (np : List Edge) :
    ∀ (fr : List NodeEntry) (x : NodeEntry), x ∈ fr →
      ∃ y ∈ updateFrontier fr t nd np, y.node = x.node ∧ y.dist ≤ x.dist := by
  intro fr
  induction fr with
  | nil => intro x hx; simp at hx
  | cons en fr ih =>
    intro x hx
    by_cases hen : en.node = t
    · simp only [updateFrontier, if_pos hen]
      by_cases hlt : nd < en.dist
      · rw [if_pos hlt]
        rcases List.mem_cons.mp hx with rfl | hmem
        · exact ⟨⟨t, nd, np⟩, List.mem_cons_self _ _, by rw [hen], hlt.le⟩
        · exact ⟨x, List.mem_cons_of_mem _ hmem, rfl, le_refl _⟩
      · rw [if_neg hlt]
        exact ⟨x, hx, rfl, le_refl _⟩
    · simp only [updateFrontier, if_neg hen]
      rcases List.mem_cons.mp hx with rfl | hmem
      · exact ⟨x, List.mem_cons_self _ _, rfl, le_refl _⟩
      · obtain ⟨y, hy, hyn, hyd⟩ := ih x hmem
        exact ⟨y, List.mem_cons_of_mem en hy, hyn, hyd⟩

theorem relaxEdges_mem (w : Edge → ℚ) (sk : List Nat) (d : ℚ) (p : List Edge) :
    ∀ (es : List Edge) (fr : List NodeEntry) (x : NodeEntry),
      x ∈ relaxEdges w sk d p es fr →
      x ∈ fr ∨ ∃ e ∈ es, e.v ∉ sk ∧ x = ⟨e.v, d + w e, p ++ [e]⟩ := by
  intro es
  induction es with
  | nil => intro fr x hx; exact Or.inl hx
  | cons e es ih =>
    intro fr x hx
    simp only [relaxEdges] at hx
    by_cases hev : e.v ∈ sk
    · rw [if_pos hev] at hx
      rcases ih _ x hx with h | ⟨e', he', hv', hx'⟩
      · exact Or.inl h
      · exact Or.inr ⟨e', List.mem_cons_of_mem e he', hv', hx'⟩
    · rw [if_neg hev] at hx
      rcases ih _ x hx with h | ⟨e', he', hv', hx'⟩
      · rcases updateFrontier_mem e.v (d + w e) (p ++ [e]) fr x h with h2 | h2
        · exact Or.inl h2
        · exact Or.inr ⟨e, List.mem_cons_self e es, hev, h2⟩
      · exact Or.inr ⟨e', List.mem_cons_of_mem e he', hv', hx'⟩

theorem relaxEdges_keys_nodup (w : Edge → ℚ) (sk : List Nat) (d : ℚ)
    (p : List Edge) :
    ∀ (es : List Edge) (fr : List NodeEntry), (keys fr).Nodup →
      (keys (relaxEdges w sk d p es fr)).Nodup := by
  intro es
  induction es with
  | nil => intro fr h; exact h
  | cons e es ih =>
    intro fr h
    simp only [relaxEdges]
    by_cases hev : e.v ∈ sk
    · rw [if_pos hev]; exact ih fr h
    · rw [if_neg hev]
      apply ih
      rw [updateFrontier_keys]
      by_cases ht : e.v ∈ keys fr
      · rw [if_pos ht]; exact h
      · rw [if_neg ht, List.nodup_append]
        refine ⟨h, List.nodup_singleton _, ?_⟩
        intro a ha hb
        rw [List.mem_singleton] at hb
        subst hb
        exact ht ha

theorem relaxEdges_mono (w : Edge → ℚ) (sk : List Nat) (d : ℚ) (p : List Edge) :
    ∀ (es : List Edge) (fr : List NodeEntry) (x : NodeEntry), x ∈ fr →
      ∃ y ∈ relaxEdges w sk d p es fr, y.node = x.node ∧ y.dist ≤ x.dist := by
  intro es
  induction es with
  | nil => intro fr x hx; exact ⟨x, hx, rfl, le_refl _⟩
  | cons e es ih =>
    intro fr x hx
    simp only [relaxEdges]
    by_cases hev : e.v ∈ sk
    · rw [if_pos hev]; exact ih fr x hx
    · rw [if_neg hev]
      obtain ⟨y, hy, hyn, hyd⟩ := updateFrontier_mono e.v (d + w e) (p ++ [e]) fr x hx
      obtain ⟨z, hz, hzn, hzd⟩ := ih _ y hy
      exact ⟨z, hz, hzn.trans hyn, hzd.trans hyd⟩

theorem relaxEdges_covers (w : Edge → ℚ) (sk : List Nat) (d : ℚ) (p : List Edge) :
    ∀ (es : List Edge) (fr : List NodeEntry), ∀ e ∈ es, e.v ∉ sk →
      ∃ y ∈ relaxEdges w sk d p es fr, y.node = e.v ∧ y.dist ≤ d + w e := by
  intro es
  induction es with
  | nil => intro fr e he _; simp at he
  | cons e0 es ih =>
    intro fr e he hev
    simp only [relaxEdges]
    rcases List.mem_cons.mp he with rfl | hmem
    · rw [if_neg hev]
      obtain ⟨y, hy, hyn, hyd⟩ := updateFrontier_exists_le e.v (d + w e) (p ++ [e]) fr
      obtain ⟨z, hz, hzn, hzd⟩ := relaxEdges_mono w sk d p es _ y hy
      exact ⟨z, hz, hzn.trans hyn, hzd.trans hyd⟩
    · by_cases hev0 : e0.v ∈ sk
      · rw [if_pos hev0]; exact ih _ e hmem hev
      · rw [if_neg hev0]; exact ih _ e hmem hev


theorem mem_keys_iff (l : List NodeEntry) (k : Nat) :
    k ∈ keys l ↔ ∃ x ∈ l, x.node = k := by
  simp [keys, List.mem_map]

theorem mem_keys_of_mem {l : List NodeEntry} {x : NodeEntry} (h : x ∈ l) :
    x.node ∈ keys l :=
  List.mem_map_of_mem _ h

theorem keys_cons (en : NodeEntry) (l : List NodeEntry) :
    keys (en :: l) = en.node :: keys l := rfl

theorem outEdges_mem (g : RoadNetworkGraph) (u : Nat) (e : Edge) :
    e ∈ outEdges g u ↔ e ∈ g.edges ∧ e.u = u := by
  simp [outEdges, List.mem_filter]

theorem edge_target_mem_universe (g : RoadNetworkGraph) (start : Nat)
    {e : Edge} (he : e ∈ g.edges) : e.v ∈ nodeUniverse g start := by
  unfold nodeUniverse
  rw [List.mem_dedup]
  exact List.mem_cons_of_mem start (List.mem_map_of_mem _ he)

theorem start_mem_universe (g : RoadNetworkGraph) (start : Nat) :
    start ∈ nodeUniverse g start := by
  unfold nodeUniverse
  rw [List.mem_dedup]
  exact List.mem_cons_self start _

theorem walk_crossing (g : RoadNetworkGraph) (S : List Nat) :
    ∀ (q : List Edge) (s tn : Nat), isWalk g s tn q = true → s ∈ S → tn ∉ S →
      ∃ pre e suf, q = pre ++ e :: suf ∧ isWalk g s e.u pre = true ∧
        e ∈ g.edges ∧ e.u ∈ S ∧ e.v ∉ S ∧ isWalk g e.v tn suf = true := by
  intro q
  induction q with
  | nil =>
    intro s tn hwalk hs ht
    rw [isWalk_nil_iff] at hwalk
    exact absurd (hwalk ▸ hs) ht
  | cons f fs ih =>
    intro s tn hwalk hs ht
    rw [isWalk_cons_iff] at hwalk
    obtain ⟨hf, hfu, hrest⟩ := hwalk
    by_cases hfv : f.v ∈ S
    · obtain ⟨pre, e, suf, heq, hpre, he, heu, hev, hsuf⟩ := ih f.v tn hrest hfv ht
      refine ⟨f :: pre, e, suf, by rw [heq, List.cons_append], ?_, he, heu, hev, hsuf⟩
      rw [isWalk_cons_iff]
      exact ⟨hf, hfu, hpre⟩
    · refine ⟨[], f, fs, rfl, ?_, hf, by rw [hfu]; exact hs, hfv, hrest⟩
      rw [isWalk_nil_iff]
      exact hfu.symm

theorem settle_optimal (g : RoadNetworkGraph) (w : Edge → ℚ) (start : Nat)
    (settled frontier : List NodeEntry) (en : NodeEntry) (rest : List NodeEntry)
    (hw : ∀ e ∈ g.edges, 0 ≤ w e)
    (inv : DijkInv g w start settled frontier)
    (hex : extractMin frontier = some (en, rest)) :
    ∀ q, isWalk g start en.node q = true → en.dist ≤ cost w q := by
  intro q hq
  have hperm := extractMin_perm frontier en rest hex
  have hmin := extractMin_le frontier en rest hex
  by_cases hstart : start ∈ keys settled
  · have hen_mem : en ∈ frontier := hperm.symm.subset (List.mem_cons_self en rest)
    have hen_not : en.node ∉ keys settled := by
      have hnd := inv.nodupKeys
      rw [List.nodup_append] at hnd
      intro hc
      exact hnd.2.2 hc (mem_keys_of_mem hen_mem)
    obtain ⟨pre, e, suf, rfl, hpre, he, heu, hev, hsuf⟩ :=
      walk_crossing g (keys settled) q start en.node hq hstart hen_not
    obtain ⟨se, hse, hsen⟩ := (mem_keys_iff _ _).mp heu
    have hsemin := inv.settledMin se hse pre (by rw [hsen]; exact hpre)
    obtain ⟨f, hf, hfn, hfd⟩ := inv.crossing se hse e he (by rw [hsen]) hev
    have hef : en.dist ≤ f.dist := entryLE_dist_le (hmin f hf)
    have hsuf_nonneg : 0 ≤ cost w suf := cost_nonneg g w hw suf e.v en.node hsuf
    rw [cost_append, cost_cons]
    calc en.dist ≤ f.dist := hef
      _ ≤ se.dist + w e := hfd
      _ ≤ cost w pre + (w e + cost w suf) := by linarith
  · rcases inv.startCover with h | ⟨f, hf, hfn, hfd⟩
    · exact absurd h hstart
    · have hef : en.dist ≤ f.dist := entryLE_dist_le (hmin f hf)
      have hq_nonneg : 0 ≤ cost w q := cost_nonneg g w hw q start en.node hq
      linarith

theorem dijkstra_step_inv (g : RoadNetworkGraph) (w : Edge → ℚ) (start : Nat)
    (settled frontier : List NodeEntry) (en : NodeEntry) (rest : List NodeEntry)
    (hw : ∀ e ∈ g.edges, 0 ≤ w e)
    (inv : DijkInv g w start settled frontier)
    (hex : extractMin frontier = some (en, rest)) :
    DijkInv g w start (en :: settled)
      (relaxEdges w (keys (en :: settled)) en.dist en.path
        (outEdges g en.node) rest) := by
  have hperm := extractMin_perm frontier en rest hex
  have hkeysperm : (keys frontier).Perm (en.node :: keys rest) := hperm.map _
  have hnd1 : (keys settled ++ en.node :: keys rest).Nodup :=
    ((List.Perm.append_left (keys settled) hkeysperm)).nodup inv.nodupKeys
  rw [List.nodup_append] at hnd1
  obtain ⟨hsnd, hcons_nd, hdisj⟩ := hnd1
  have hennotr : en.node ∉ keys rest := (List.nodup_cons.mp hcons_nd).1
  have hrestnd : (keys rest).Nodup := (List.nodup_cons.mp hcons_nd).2
  have hennots : en.node ∉ keys settled := fun hc =>
    hdisj hc (List.mem_cons_self _ _)
  have hen_mem : en ∈ frontier := hperm.symm.subset (List.mem_cons_self en rest)
  have hrest_sub : ∀ x ∈ rest, x ∈ frontier := fun x hx =>
    hperm.symm.subset (List.mem_cons_of_mem en hx)
  have hen_sound := inv.frontierSound en hen_mem
  have hsk : keys (en :: settled) = en.node :: keys settled := rfl
  constructor
  · -- nodupKeys
    rw [List.nodup_append]
    refine ⟨?_, relaxEdges_keys_nodup w _ _ _ _ rest hrestnd, ?_⟩
    · rw [hsk, List.nodup_cons]
      exact ⟨hennots, hsnd⟩
    · intro k hk hk'
      obtain ⟨y, hy, hyk⟩ := (mem_keys_iff _ _).mp hk'
      rcases relaxEdges_mem w _ _ _ _ rest y hy with hyr | ⟨e, _, hevsk, rfl⟩
      · have hkr : k ∈ keys rest := hyk ▸ mem_keys_of_mem hyr
        rw [hsk] at hk
        rcases List.mem_cons.mp hk with rfl | hks
        · exact hennotr hkr
        · exact hdisj hks (List.mem_cons_of_mem _ hkr)
      · have hek : e.v = k := hyk
        exact hevsk (hek ▸ hk)
  · -- settledSound
    intro x hx
    rcases List.mem_cons.mp hx with rfl | hxs
    · exact hen_sound
    · exact inv.settledSound x hxs
  · -- settledMin
    intro x hx
    rcases List.mem_cons.mp hx with rfl | hxs
    · exact settle_optimal g w start settled frontier x rest hw inv hex
    · exact inv.settledMin x hxs
  · -- frontierSound
    intro x hx
    rcases relaxEdges_mem w _ _ _ _ rest x hx with hxr | ⟨e, he, _, rfl⟩
    · exact inv.frontierSound x (hrest_sub x hxr)
    · obtain ⟨heg, heu⟩ := (outEdges_mem g en.node e).mp he
      constructor
      · exact isWalk_append_edge g e heg en.path start (by rw [heu]; exact hen_sound.1)
      · rw [cost_append, hen_sound.2, cost_cons, cost_nil]
        ring
  · -- crossing
    intro se hse e heg heu hev
    rw [hsk] at hev
    have hev_ne : e.v ≠ en.node := fun hc => hev (hc ▸ List.mem_cons_self _ _)
    have hev_ns : e.v ∉ keys settled := fun hc => hev (List.mem_cons_of_mem _ hc)
    rcases List.mem_cons.mp hse with rfl | hses
    · have hout : e ∈ outEdges g se.node := (outEdges_mem g se.node e).mpr ⟨heg, heu⟩
      obtain ⟨y, hy, hyn, hyd⟩ :=
        relaxEdges_covers w (keys (se :: settled)) se.dist se.path
          (outEdges g se.node) rest e hout (by rw [hsk]; exact hev)
      exact ⟨y, hy, hyn, hyd⟩
    · obtain ⟨f, hf, hfn, hfd⟩ := inv.crossing se hses e heg heu hev_ns
      have hf_rest : f ∈ rest := by
        rcases List.mem_cons.mp (hperm.subset hf) with rfl | h
        · exact False.elim (hev_ne hfn.symm)
        · exact h
      obtain ⟨y, hy, hyn, hyd⟩ := relaxEdges_mono w _ _ _ _ rest f hf_rest
      exact ⟨y, hy, hyn.trans hfn, hyd.trans hfd⟩
  · -- startCover
    rcases inv.startCover with h | ⟨f, hf, hfn, hfd⟩
    · exact Or.inl (by rw [hsk]; exact List.mem_cons_of_mem _ h)
    · rcases List.mem_cons.mp (hperm.subset hf) with rfl | hfr
      · exact Or.inl (by rw [hsk, ← hfn]; exact List.mem_cons_self _ _)
      · obtain ⟨y, hy, hyn, hyd⟩ := relaxEdges_mono w _ _ _ _ rest f hfr
        exact Or.inr ⟨y, hy, hyn.trans hfn, hyd.trans hfd⟩
  · -- keysInUniverse
    intro k hk
    rcases List.mem_append.mp hk with hk1 | hk2
    · rw [hsk] at hk1
      rcases List.mem_cons.mp hk1 with rfl | hks
      · exact inv.keysInUniverse _ (List.mem_append.mpr
          (Or.inr (mem_keys_of_mem hen_mem)))
      · exact inv.keysInUniverse _ (List.mem_append.mpr (Or.inl hks))
    · obtain ⟨y, hy, hyk⟩ := (mem_keys_iff _ _).mp hk2
      rcases relaxEdges_mem w _ _ _ _ rest y hy with hyr | ⟨e, he, _, rfl⟩
      · have : k ∈ keys frontier := hkeysperm.symm.subset
          (List.mem_cons_of_mem _ (hyk ▸ mem_keys_of_mem hyr))
        exact inv.keysInUniverse _ (List.mem_append.mpr (Or.inr this))
      · obtain ⟨heg, _⟩ := (outEdges_mem g en.node e).mp he
        exact hyk ▸ edge_target_mem_universe g start heg

theorem frontier_empty_of_full (g : RoadNetworkGraph) (w : Edge → ℚ)
    (start : Nat) (settled frontier : List NodeEntry)
    (inv : DijkInv g w start settled frontier)
    (hlen : (nodeUniverse g start).length ≤ settled.length) :
    frontier = [] := by
  have hnd := inv.nodupKeys
  have hcard : (keys settled ++ keys frontier).length ≤
      (nodeUniverse g start).length := by
    have h1 : (keys settled ++ keys frontier).toFinset.card =
        (keys settled ++ keys frontier).length :=
      List.toFinset_card_of_nodup hnd
    have h2 : (keys settled ++ keys frontier).toFinset ⊆
        (nodeUniverse g start).toFinset := by
      intro a ha
      rw [List.mem_toFinset] at ha ⊢
      exact inv.keysInUniverse a ha
    calc (keys settled ++ keys frontier).length
        = (keys settled ++ keys frontier).toFinset.card := h1.symm
      _ ≤ (nodeUniverse g start).toFinset.card := Finset.card_le_card h2
      _ ≤ (nodeUniverse g start).length := List.toFinset_card_le _
  rw [List.length_append] at hcard
  have hks : (keys settled).length = settled.length := by simp [keys]
  have hkf : (keys frontier).length = frontier.length := by simp [keys]
  rw [hks, hkf] at hcard
  have hfr0 : frontier.length = 0 := by omega
  exact List.length_eq_zero.mp hfr0

theorem dijkstraAux_inv (g : RoadNetworkGraph) (w : Edge → ℚ) (start : Nat)
    (hw : ∀ e ∈ g.edges, 0 ≤ w e) :
    ∀ (fuel : Nat) (settled frontier : List NodeEntry),
      DijkInv g w start settled frontier →
      (nodeUniverse g start).length ≤ fuel + settled.length →
      DijkInv g w start (dijkstraAux g w fuel settled frontier) [] := by
  intro fuel
  induction fuel with
  | zero =>
    intro settled frontier inv hlen
    have hfr : frontier = [] :=
      frontier_empty_of_full g w start settled frontier inv (by omega)
    subst hfr
    exact inv
  | succ fuel ih =>
    intro settled frontier inv hlen
    cases hex : extractMin frontier with
    | none =>
      have hfr := (extractMin_none_iff frontier).mp hex
      subst hfr
      exact inv
    | some pr =>
      obtain ⟨en, rest⟩ := pr
      have hstep := dijkstra_step_inv g w start settled frontier en rest hw inv hex
      have hres := ih (en :: settled) _ hstep
        (by simp only [List.length_cons]; omega)
      simpa only [dijkstraAux, hex] using hres

theorem dijkstra_initial_inv (g : RoadNetworkGraph) (w : Edge → ℚ)
    (start : Nat) : DijkInv g w start [] [⟨start, 0, []⟩] := by
  constructor
  · simp [keys]
  · intro en hen; simp at hen
  · intro en hen; simp at hen
  · intro en hen
    rw [List.mem_singleton] at hen
    subst hen
    exact ⟨by rw [isWalk_nil_iff], rfl⟩
  · intro se hse; simp at hse
  · exact Or.inr ⟨⟨start, 0, []⟩, List.mem_singleton_self _, rfl, le_refl 0⟩
  · intro k hk
    simp [keys] at hk
    rw [hk]
    exact start_mem_universe g start

theorem dijkstra_inv (g : RoadNetworkGraph) (w : Edge → ℚ) (start : Nat)
    (hw : ∀ e ∈ g.edges, 0 ≤ w e) :
    DijkInv g w start (dijkstra g w start) [] := by
  unfold dijkstra
  exact dijkstraAux_inv g w start hw (nodeUniverse g start).length []
    [⟨start, 0, []⟩] (dijkstra_initial_inv g w start) (by simp)

theorem inv_complete (g : RoadNetworkGraph) (w : Edge → ℚ) (start : Nat)
    (settled : List NodeEntry) (inv : DijkInv g w start settled [])
    (tn : Nat) (hconn : Connected g start tn) : tn ∈ keys settled := by
  obtain ⟨q, hq⟩ := hconn
  by_contra htn
  have hstart : start ∈ keys settled := by
    rcases inv.startCover with h | ⟨f, hf, _⟩
    · exact h
    · simp at hf
  obtain ⟨pre, e, suf, _, hpre, he, heu, hev, hsuf⟩ :=
    walk_crossing g (keys settled) q start tn hq hstart htn
  obtain ⟨se, hse, hsen⟩ := (mem_keys_iff _ _).mp heu
  obtain ⟨f, hf, _⟩ := inv.crossing se hse e he (by rw [hsen]) hev
  simp at hf

theorem find_key (t : Nat) : ∀ l : List NodeEntry, t ∈ keys l →
    ∃ en, l.find? (fun en => en.node == t) = some en ∧ en.node = t := by
  intro l
  induction l with
  | nil => intro h; simp [keys] at h
  | cons x l ih =>
    intro h
    by_cases hx : x.node = t
    · exact ⟨x, by simp [List.find?, hx], hx⟩
    · have h' : t ∈ keys l := by
        rcases List.mem_cons.mp h with h | h
        · exact absurd h.symm hx
        · exact h
      obtain ⟨en, hfind, hen⟩ := ih h'
      refine ⟨en, ?_, hen⟩
      rw [List.find?_cons_of_neg]
      · exact hfind
      · simp [hx]

/-- C1: for every pair of start and end nodes connected in the road
network graph, PathFinder returns a path, that path is a walk from start
to end, and no other walk between the same nodes has strictly smaller
total cost under the supplied weight function (minimality of the returned
path). -/
theorem pathFinder_minimal (g : RoadNetworkGraph) (w : Edge → ℚ) (s t : Nat)
    (hw : ∀ e ∈ g.edges, 0 ≤ w e) (hconn : Connected g s t) :
    ∃ p, pathFinder g w s t = some p ∧ isWalk g s t p = true ∧
      ∀ q, isWalk g s t q = true → cost w p ≤ cost w q := by
  have inv := dijkstra_inv g w s hw
  have hmem := inv_complete g w s (dijkstra g w s) inv t hconn
  obtain ⟨en, hfind, hent⟩ := find_key t (dijkstra g w s) hmem
  have hen_mem : en ∈ dijkstra g w s := List.mem_of_find?_eq_some hfind
  have hsound := inv.settledSound en hen_mem
  have hmin := inv.settledMin en hen_mem
  refine ⟨en.path, ?_, ?_, ?_⟩
  · unfold pathFinder
    rw [hfind]
  · rw [← hent]
    exact hsound.1
  · intro q hq
    rw [hsound.2]
    exact hmin q (by rw [hent]; exact hq)

/-- Witness for C1 on the four-node fixture of spec section 8: start 0 and
end 3 are connected, all weights are non-negative, and the returned path
is a minimum-cost walk. -/
theorem pathFinder_minimal_witness :
    ∃ p, pathFinder ⟨[0, 1, 2, 3], [⟨0, 3, 10, 1⟩, ⟨0, 1, 1, 1⟩, ⟨1, 2, 1, 1⟩, ⟨2, 3, 1, 1⟩]⟩
        (fun e => e.base) 0 3 = some p ∧
      isWalk ⟨[0, 1, 2, 3], [⟨0, 3, 10, 1⟩, ⟨0, 1, 1, 1⟩, ⟨1, 2, 1, 1⟩, ⟨2, 3, 1, 1⟩]⟩
        0 3 p = true ∧
      ∀ q, isWalk ⟨[0, 1, 2, 3], [⟨0, 3, 10, 1⟩, ⟨0, 1, 1, 1⟩, ⟨1, 2, 1, 1⟩, ⟨2, 3, 1, 1⟩]⟩
          0 3 q = true →
        cost (fun e => e.base) p ≤ cost (fun e => e.base) q :=
  pathFinder_minimal
    ⟨[0, 1, 2, 3], [⟨0, 3, 10, 1⟩, ⟨0, 1, 1, 1⟩, ⟨1, 2, 1, 1⟩, ⟨2, 3, 1, 1⟩]⟩
    (fun e => e.base) 0 3 (by decide)
    ⟨[⟨0, 1, 1, 1⟩, ⟨1, 2, 1, 1⟩, ⟨2, 3, 1, 1⟩], by decide⟩


theorem extractMin_map (w : Edge → ℚ) : ∀ l : List NodeEntry,
    extractMin (l.map (mapEntry w)) =
      (extractMin l).map fun pr => (mapEntry w pr.1, pr.2.map (mapEntry w)) := by
  intro l
  induction l with
  | nil => rfl
  | cons e es ih =>
    simp only [List.map_cons, extractMin, ih]
    cases hrec : extractMin es with
    | none => rfl
    | some pr =>
      obtain ⟨m', rest'⟩ := pr
      dsimp only [Option.map]
      have hle : entryLE (mapEntry w e) (mapEntry w m') = entryLE e m' := rfl
      rw [hle]
      by_cases hc : entryLE e m' = true
      · rw [if_pos hc, if_pos hc]
      · rw [if_neg hc, if_neg hc]
        rfl

theorem updateFrontier_map (w : Edge → ℚ) (t : Nat) (nd : ℚ) (np : List Edge) :
    ∀ fr : List NodeEntry,
      updateFrontier (fr.map (mapEntry w)) t nd (np.map (mapEdgeWeight w)) =
        (updateFrontier fr t nd np).map (mapEntry w) := by
  intro fr
  induction fr with
  | nil => rfl
  | cons en fr ih =>
    simp only [List.map_cons, updateFrontier]
    dsimp only [mapEntry]
    by_cases hen : en.node = t
    · rw [if_pos hen, if_pos hen]
      by_cases hlt : nd < en.dist
      · rw [if_pos hlt, if_pos hlt]
        rfl
      · rw [if_neg hlt, if_neg hlt]
        rfl
    · rw [if_neg hen, if_neg hen, List.map_cons, ih]
      rfl

theorem relaxEdges_map (w : Edge → ℚ) (sk : List Nat) (d : ℚ) :
    ∀ (es : List Edge) (p : List Edge) (fr : List NodeEntry),
      relaxEdges baseWeight sk d (p.map (mapEdgeWeight w))
          (es.map (mapEdgeWeight w)) (fr.map (mapEntry w)) =
        (relaxEdges w sk d p es fr).map (mapEntry w) := by
  intro es
  induction es with
  | nil => intro p fr; rfl
  | cons e es ih =>
    intro p fr
    simp only [List.map_cons, relaxEdges]
    dsimp only [mapEdgeWeight, baseWeight]
    by_cases hev : e.v ∈ sk
    · rw [if_pos hev, if_pos hev]
      exact ih p fr
    · rw [if_neg hev, if_neg hev]
      have happ : List.map (mapEdgeWeight w) p ++ [⟨e.u, e.v, w e, e.lengthKm⟩] =
          (p ++ [e]).map (mapEdgeWeight w) := by
        rw [List.map_append]
        rfl
      rw [happ, updateFrontier_map]
      exact ih p (updateFrontier fr e.v (d + w e) (p ++ [e]))

theorem outEdges_map (g : RoadNetworkGraph) (w : Edge → ℚ) (u : Nat) :
    outEdges (reweightGraph g w) u = (outEdges g u).map (mapEdgeWeight w) := by
  unfold outEdges reweightGraph
  induction g.edges with
  | nil => rfl
  | cons e es ih =>
    simp only [List.map_cons, List.filter_cons]
    dsimp only [mapEdgeWeight]
    by_cases hu : (e.u == u) = true
    · rw [if_pos hu, if_pos hu, List.map_cons]
      simp only at ih
      rw [ih]
      rfl
    · rw [if_neg hu, if_neg hu]
      simpa only using ih

theorem keys_map (w : Edge → ℚ) (l : List NodeEntry) :
    keys (l.map (mapEntry w)) = keys l := by
  simp only [keys, List.map_map]
  rfl

theorem dijkstraAux_map (g : RoadNetworkGraph) (w : Edge → ℚ) :
    ∀ (fuel : Nat) (settled fr : List NodeEntry),
      dijkstraAux (reweightGraph g w) baseWeight fuel
          (settled.map (mapEntry w)) (fr.map (mapEntry w)) =
        (dijkstraAux g w fuel settled fr).map (mapEntry w) := by
  intro fuel
  induction fuel with
  | zero => intro settled fr; rfl
  | succ fuel ih =>
    intro settled fr
    have hmap := extractMin_map w fr
    cases hex : extractMin fr with
    | none =>
      rw [hex] at hmap
      simp only [dijkstraAux, hex, hmap, Option.map]
    | some pr =>
      obtain ⟨en, rest⟩ := pr
      rw [hex] at hmap
      simp only [dijkstraAux, hex, hmap, Option.map]
      have hcons : mapEntry w en :: settled.map (mapEntry w) =
          (en :: settled).map (mapEntry w) := rfl
      have hkeys : keys (mapEntry w en :: settled.map (mapEntry w)) =
          keys (en :: settled) := by
        rw [hcons, keys_map]
      rw [hkeys]
      have hnode : (mapEntry w en).node = en.node := rfl
      have hdist : (mapEntry w en).dist = en.dist := rfl
      have hpath : (mapEntry w en).path = en.path.map (mapEdgeWeight w) := rfl
      rw [hnode, hdist, hpath, outEdges_map, relaxEdges_map, hcons]
      exact ih (en :: settled) _

theorem nodeUniverse_reweight (g : RoadNetworkGraph) (w : Edge → ℚ)
    (start : Nat) :
    nodeUniverse (reweightGraph g w) start = nodeUniverse g start := by
  unfold nodeUniverse reweightGraph
  simp only [List.map_map]
  rfl

theorem dijkstra_map (g : RoadNetworkGraph) (w : Edge → ℚ) (start : Nat) :
    dijkstra (reweightGraph g w) baseWeight start =
      (dijkstra g w start).map (mapEntry w) := by
  unfold dijkstra
  rw [nodeUniverse_reweight]
  exact dijkstraAux_map g w (nodeUniverse g start).length [] [⟨start, 0, []⟩]

theorem find?_map (w : Edge → ℚ) (t : Nat) : ∀ l : List NodeEntry,
    (l.map (mapEntry w)).find? (fun en => en.node == t) =
      (l.find? (fun en => en.node == t)).map (mapEntry w) := by
  intro l
  induction l with
  | nil => rfl
  | cons x l ih =>
    simp only [List.map_cons, List.find?]
    dsimp only [mapEntry]
    cases hx : x.node == t with
    | true => rfl
    | false => exact ih

/-- C3: the lazily-weighted search and the copy-based search over a fully
re-weighted graph are equivalent: for every graph, weight function and
endpoint pair they return the same node sequence and the same total cost,
and fail on exactly the same inputs; the modelled engine itself evaluates
the weight function per visited edge and never materializes the copy. -/
theorem pathFinder_lazy_eq_preweighted (g : RoadNetworkGraph) (w : Edge → ℚ)
    (s t : Nat) :
    (pathFinderPreweighted g w s t).map (nodeSequence s) =
      (pathFinder g w s t).map (nodeSequence s) ∧
    (pathFinderPreweighted g w s t).map (cost baseWeight) =
      (pathFinder g w s t).map (cost w) ∧
    (pathFinderPreweighted g w s t = none ↔ pathFinder g w s t = none) := by
  have hkey : pathFinderPreweighted g w s t =
      (pathFinder g w s t).map (List.map (mapEdgeWeight w)) := by
    unfold pathFinderPreweighted pathFinder
    rw [dijkstra_map, find?_map]
    cases (dijkstra g w s).find? (fun en => en.node == t) with
    | none => rfl
    | some en => rfl
  refine ⟨?_, ?_, ?_⟩
  · rw [hkey]
    cases pathFinder g w s t with
    | none => rfl
    | some p =>
      simp only [Option.map, nodeSequence, List.map_map]
      rfl
  · rw [hkey]
    cases pathFinder g w s t with
    | none => rfl
    | some p =>
      simp only [Option.map, cost, List.map_map]
      rfl
  · rw [hkey]
    cases pathFinder g w s t with
    | none => simp
    | some p => simp

/-- C7: PathFinder is deterministic — two runs on the same graph, weight
function and endpoints return the same path — and the priority queue
extraction breaks ties in accumulated cost in favour of the lower node
identifier. -/
theorem pathFinder_deterministic_tiebreak :
    (∀ (g : RoadNetworkGraph) (w : Edge → ℚ) (s t : Nat),
        pathFinder g w s t = pathFinder g w s t) ∧
    (∀ (fr : List NodeEntry) (en : NodeEntry) (rest : List NodeEntry),
        extractMin fr = some (en, rest) → ∀ x ∈ fr,
          en.dist < x.dist ∨ (en.dist = x.dist ∧ en.node ≤ x.node)) := by
  refine ⟨fun _ _ _ _ => rfl, fun fr en rest hex x hx => ?_⟩
  have h := extractMin_le fr en rest hex x hx
  simp only [entryLE, Bool.or_eq_true, Bool.and_eq_true, decide_eq_true_eq] at h
  exact h

/-- Witness for C7: on a queue holding two entries of equal accumulated
cost, the extracted entry is the one with the lower node identifier. -/
theorem pathFinder_deterministic_tiebreak_witness :
    (⟨1, 5, []⟩ : NodeEntry).dist < (⟨2, 5, []⟩ : NodeEntry).dist ∨
      ((⟨1, 5, []⟩ : NodeEntry).dist = (⟨2, 5, []⟩ : NodeEntry).dist ∧
        (⟨1, 5, []⟩ : NodeEntry).node ≤ (⟨2, 5, []⟩ : NodeEntry).node) :=
  pathFinder_deterministic_tiebreak.2 [⟨2, 5, []⟩, ⟨1, 5, []⟩] ⟨1, 5, []⟩
    [⟨2, 5, []⟩] (by decide) ⟨2, 5, []⟩ (by decide)

end SafeTrace
